import Mathlib

/-!
# KitchenIQ add-on: verification of the receipt-to-inventory core

Shallow embedding of `src/kitcheniq/app.py`. Pure helpers become Lean
functions; the SQLite tables become lists inside explicit state records;
database time (`datetime.now()`) and the external providers (Google image
search, Open Food Facts, Wikipedia, the extraction oracle) are passed in
explicitly as parameters / environment records. Monetary amounts and the
floating-point arithmetic of the analytics views are modelled over `ℚ`,
timestamps as integer seconds.
-/

namespace KitchenIQ

/-! ## Python-flavoured primitives -/

/-- Python truthiness of an optional string (SQL NULL ↦ `none`):
`None` and `''` are falsy. -/
def strTruthy : Option String → Bool
  | none => false
  | some s => s ≠ ""

/-- Python `a or b` on strings: yields `b` when `a` is falsy (empty). -/
def pyOrStr (a b : String) : String :=
  if a = "" then b else a

/-- ASCII lower-casing of one character, as SQLite's NOCASE collation
folds only A–Z. -/
def asciiLowerChar (c : Char) : Char :=
  if 'A' ≤ c ∧ c ≤ 'Z' then Char.ofNat (c.toNat + 32) else c

/-- SQLite `name = ? COLLATE NOCASE` string comparison. -/
def sqlNoCaseEq (a b : String) : Bool :=
  a.toList.map asciiLowerChar == b.toList.map asciiLowerChar

/-- `needle` matches at the head of `hay`. -/
def leadMatch : List Char → List Char → Bool
  | [], _ => true
  | _ :: _, [] => false
  | c :: cs, h :: hs => c == h && leadMatch cs hs

/-- Python `needle in hay` substring test, over character lists. -/
def hasSub (needle : List Char) : List Char → Bool
  | [] => needle.isEmpty
  | h :: hs => leadMatch needle (h :: hs) || hasSub needle hs

/-- Python `s.lower()`, character-wise (the strings this program lowers
are ASCII, where `Char.toLower` agrees with Python's case folding). -/
def pyLower (s : String) : String :=
  String.mk (s.toList.map Char.toLower)

/-- Python `s.strip()`: drop leading and trailing whitespace. -/
def pyTrim (s : String) : String :=
  String.mk (((s.toList.dropWhile Char.isWhitespace).reverse.dropWhile
    Char.isWhitespace).reverse)

/-- Maximal runs of non-whitespace characters (empty runs included at
whitespace boundaries, filtered by `pySplitWs`). -/
def splitWsRuns (l : List Char) : List (List Char) :=
  l.foldr (fun c acc =>
    if c.isWhitespace then [] :: acc
    else match acc with
      | [] => [[c]]
      | g :: gs => (c :: g) :: gs) []

/-- Python `s.split()`: split on whitespace runs, dropping empty pieces. -/
def pySplitWs (s : String) : List String :=
  ((splitWsRuns s.toList).filter (fun g => g ≠ [])).map (fun g => String.mk g)

/-- Lexicographic order on strings, as SQLite's BINARY collation orders
the ASCII text in this database. -/
def strLeB (a b : String) : Bool :=
  charListLe a.toList b.toList
where
  charListLe : List Char → List Char → Bool
    | [], _ => true
    | _ :: _, [] => false
    | a :: as, b :: bs => if a = b then charListLe as bs else decide (a < b)

/-- Stable insertion of `x` after every already-placed element `y` with
`le y x`: the sort below therefore keeps the original order of equal
keys, as Python's stable `list.sort` does. -/
def insSorted (le : α → α → Bool) (x : α) : List α → List α
  | [] => [x]
  | y :: ys => if le y x then y :: insSorted le x ys else x :: y :: ys

/-- Stable sort (models Python `sorted` / `list.sort` and SQL ORDER BY). -/
def insSort (le : α → α → Bool) (l : List α) : List α :=
  l.foldl (fun acc x => insSorted le x acc) []

/-- Python `round(x)`: round half to even, to an integer. -/
def pyRound (q : ℚ) : ℤ :=
  let f : ℤ := ⌊q⌋
  let r : ℚ := q - f
  if r < 1/2 then f
  else if 1/2 < r then f + 1
  else if f % 2 = 0 then f else f + 1

/-- Python `round(x, 2)`: round half to even at two decimal places. -/
def pyRound2 (q : ℚ) : ℚ :=
  (pyRound (q * 100) : ℚ) / 100

/-! ## Records (rows of the five tables)

The SQLite tables of `init_db` (`app.py:56-105`). Timestamps are integer
seconds (the code stores `datetime.now().isoformat()` strings whose
lexicographic order is chronological order). -/

/-- A row of `items`. -/
structure InventoryItem where
  id : Nat
  name : String
  description : String
  category : String
  price : ℚ
  image_url : Option String
  image_local : Option String
  status : String
  quantity : ℤ
  store : Option String
  date_added : ℤ
  date_modified : ℤ
  deriving DecidableEq, Repr

/-- A row of `shopping_list`; `item_id` is nullable (manual entries). -/
structure ShopEntry where
  id : Nat
  item_id : Option Nat
  name : String
  description : String
  category : String
  price : ℚ
  image_url : Option String
  image_local : Option String
  store : Option String
  added_date : ℤ
  deriving DecidableEq, Repr

/-- A row of `item_history` (append-only). -/
structure HistEvent where
  item_name : String
  event_type : String
  event_date : ℤ
  deriving DecidableEq, Repr

/-- A row of `price_history` (append-only). -/
structure PriceObs where
  item_name : String
  store : String
  price : ℚ
  date_recorded : ℤ
  deriving DecidableEq, Repr

/-- A row of `image_cache`; `query_hash` is the unique key. The MD5 hex
digest of the lowercased query is modelled as the lowercased query itself
(an injective stand-in for the content-addressed fingerprint). -/
structure CacheEntry where
  query_hash : String
  query : String
  local_path : Option String
  source_url : Option String
  date_cached : ℤ
  deriving DecidableEq, Repr

/-- The mutable database state touched by the reconciliation pipeline:
the four inventory-side tables plus the AUTOINCREMENT counters. -/
structure AppState where
  items : List InventoryItem
  shopping : List ShopEntry
  history : List HistEvent
  prices : List PriceObs
  nextItemId : Nat
  nextShopId : Nat
  deriving DecidableEq, Repr

/-! ## `log_price` (`app.py:109-115`) -/

/-- `log_price(conn, item_name, store, price)`: append a `price_history`
row when `store and store not in ('', 'Unknown') and price and price > 0`.
`store` is `Option String` because callers pass SQL-nullable values. -/
def log_price (ph : List PriceObs) (item_name : String) (store : Option String)
    (price : ℚ) (now : ℤ) : List PriceObs :=
  match store with
  | none => ph
  | some s =>
      if s ≠ "" ∧ s ≠ "Unknown" ∧ price ≠ 0 ∧ 0 < price then
        ph ++ [⟨item_name, s, price, now⟩]
      else ph

/-- `log_history_event(conn, item_name, event_type)` (`app.py:117-122`). -/
def log_history_event (hist : List HistEvent) (item_name event_type : String)
    (now : ℤ) : List HistEvent :=
  hist ++ [⟨item_name, event_type, now⟩]

/-! ## Wikipedia provider (`fetch_from_wikipedia`, `app.py:124-158`)

The two HTTP round-trips (search, page summary) are modelled by a
`WikiEnv` environment record; a request that raised an exception is
represented by a non-200 status. -/

/-- Response of the page-summary endpoint for one title. -/
structure PageResp where
  status : Nat
  thumbnail : Option String

/-- The external Wikipedia service as seen by the resolver. -/
structure WikiEnv where
  searchStatus : Nat
  searchResults : List String
  page : String → PageResp

/-- `[w for w in item_name.lower().split() if len(w) > 2]` (`app.py:139`). -/
def queryWords (item_name : String) : List String :=
  (pySplitWs (pyLower item_name)).filter (fun w => 2 < w.length)

/-- `all(w in title_lower for w in query_words)` (`app.py:145`). -/
def titleAccept (query_words : List String) (title : String) : Bool :=
  query_words.all (fun w => hasSub w.toList (pyLower title).toList)

/-- The `for result in results` loop (`app.py:142-155`): first candidate
whose title passes the containment test and whose summary page yields a
thumbnail. -/
def wikiScan (env : WikiEnv) (qws : List String) : List String → Option String
  | [] => none
  | t :: ts =>
      if titleAccept qws t then
        let p := env.page t
        if p.status = 200 then
          match p.thumbnail with
          | some thumb => some thumb
          | none => wikiScan env qws ts
        else wikiScan env qws ts
      else wikiScan env qws ts

/-- `fetch_from_wikipedia(item_name)` (`app.py:124-158`). -/
def fetch_from_wikipedia (env : WikiEnv) (item_name : String) : Option String :=
  if env.searchStatus ≠ 200 then none
  else
    let qws := queryWords item_name
    if qws.isEmpty then none
    else wikiScan env qws env.searchResults

/-! ## Image resolver (`fetch_product_image`, `app.py:160-246`) -/

/-- The external providers as seen by one resolution: the Google result is
`none` unless credentials are configured and the call succeeded with items;
`download url` is `some ext` when the image bytes came back with HTTP 200
(ext from the content type), `none` on failure. -/
structure ImgEnv where
  googleConfigured : Bool
  googleResult : Option String
  offResult : Option String
  wiki : WikiEnv
  download : String → Option String

/-- State owned by the resolver: the `image_cache` table and the set of
files present under the cache directory. -/
structure ImgState where
  cache : List CacheEntry
  fs : List String

/-- `f"{item_name} {description}".strip()` (`app.py:162`). -/
def imgQuery (item_name description : String) : String :=
  pyTrim (item_name ++ " " ++ description)

/-- `hashlib.md5(query.lower().encode()).hexdigest()` (`app.py:163`):
the digest is modelled as the lowercased query, an injective stand-in. -/
def queryFingerprint (query : String) : String :=
  pyLower query

/-- The cache directory configured at `app.py:16`. -/
def IMAGE_CACHE_DIR : String := "/data/image_cache"

/-- Provider cascade on a cache miss (`app.py:173-218`): Google if
configured, then Open Food Facts, then Wikipedia. -/
def resolveCascade (env : ImgEnv) (item_name : String) : Option String :=
  let google := if env.googleConfigured then env.googleResult else none
  let afterOff :=
    match google with
    | some u => some u
    | none => env.offResult
  match afterOff with
  | some u => some u
  | none => fetch_from_wikipedia env.wiki item_name

/-- The miss path of `fetch_product_image` (`app.py:173-246`): run the
cascade, download and persist the image when found, then
`INSERT OR REPLACE` the cache row keyed by the fingerprint. The final
`Bool` records that provider requests were issued. -/
def fetchProductImageMiss (env : ImgEnv) (st : ImgState) (item_name query h : String)
    (now : ℤ) : (Option String × Option String) × ImgState × Bool :=
  let image_url := resolveCascade env item_name
  let (local_path, fs') :=
    match image_url with
    | none => (none, st.fs)
    | some u =>
        match env.download u with
        | some ext =>
            let p := IMAGE_CACHE_DIR ++ "/" ++ h ++ ext
            (some p, p :: st.fs)
        | none => (none, st.fs)
  let entry : CacheEntry := ⟨h, query, local_path, image_url, now⟩
  ((local_path, image_url),
   ⟨entry :: st.cache.filter (fun c => c.query_hash ≠ h), fs'⟩,
   true)

/-- `fetch_product_image(item_name, description, store)`
(`app.py:160-246`). Returns `((local_path, source_url), state', queried)`
where `queried` is true iff any provider was contacted (i.e. the cache-hit
early return at `app.py:170-171` was not taken). The hit requires a truthy
`local_path` whose file still exists. -/
def fetch_product_image (env : ImgEnv) (st : ImgState) (item_name description : String)
    (now : ℤ) : (Option String × Option String) × ImgState × Bool :=
  let query := imgQuery item_name description
  let h := queryFingerprint query
  match st.cache.find? (fun c => c.query_hash = h) with
  | some c =>
      match c.local_path with
      | some p =>
          if p ≠ "" ∧ st.fs.contains p then ((some p, c.source_url), st, false)
          else fetchProductImageMiss env st item_name query h now
      | none => fetchProductImageMiss env st item_name query h now
  | none => fetchProductImageMiss env st item_name query h now

/-! ## Receipt reconciliation (`upload_receipt`, `app.py:539-590`) -/

/-- One extracted line item: the JSON object returned by the oracle.
`name` is accessed unguarded (`item['name']`, `app.py:566`) so it is
required; the other fields go through `item.get(..., default)` and are
optional. -/
structure LineItem where
  name : String
  description : Option String
  price : Option ℚ
  category : Option String
  store : Option String
  deriving DecidableEq, Repr

/-- One element of the `added` report (`app.py:575`, `app.py:584`). -/
structure ReceiptAction where
  id : Nat
  name : String
  action : String
  deriving DecidableEq, Repr

/-- The HTTP response of `upload_receipt`: the success JSON
`{'success': True, 'items': ..., 'count': ...}` or the error JSON
`{'error': str(e)}` with status 500 (`app.py:587-590`). -/
inductive UploadResp where
  | success : List ReceiptAction → Nat → UploadResp
  | serverError : String → UploadResp
  deriving DecidableEq, Repr

/-- The `count` field carried by an `upload_receipt` response, if any:
the error payload has no such field. -/
def respCount : UploadResp → Option Nat
  | .success _ c => some c
  | .serverError _ => none

/-- `COALESCE(NULLIF(old, ""), new)` from the update statement at
`app.py:569`: keep `old` unless it is NULL or the empty string. -/
def coalesceNullif (old new : Option String) : Option String :=
  match old with
  | none => new
  | some s => if s = "" then new else some s

/-- One iteration of the `for item in items` loop (`app.py:563-584`):
case-insensitive match against `items` decides update vs insert. `hint`
is the receipt-level store from the form; `images` is the name →
(local_path, source_url) map fetched beforehand (`app.py:557-560`). -/
def processLine (hint : String) (images : String → Option String × Option String)
    (now : ℤ) (st : AppState) (li : LineItem) : AppState × ReceiptAction :=
  let resolved := images li.name
  match st.items.find? (fun it => sqlNoCaseEq it.name li.name) with
  | some ex =>
      let items' := st.items.map (fun it =>
        if it.id = ex.id then
          { it with
            status := "have"
            quantity := it.quantity + 1
            date_modified := now
            image_url := coalesceNullif it.image_url resolved.2
            image_local := coalesceNullif it.image_local resolved.1 }
        else it)
      ({ st with
          items := items'
          shopping := st.shopping.filter (fun e => e.item_id ≠ some ex.id)
          history := log_history_event st.history li.name "restocked" now
          prices := log_price st.prices li.name (some (li.store.getD hint))
            (li.price.getD 0) now },
       ⟨ex.id, li.name, "updated"⟩)
  | none =>
      let effStore := pyOrStr (li.store.getD hint) hint
      let newItem : InventoryItem :=
        { id := st.nextItemId
          name := li.name
          description := li.description.getD ""
          category := li.category.getD "Pantry"
          price := li.price.getD 0
          image_url := resolved.2
          image_local := resolved.1
          status := "have"
          quantity := 1
          store := some effStore
          date_added := now
          date_modified := now }
      ({ st with
          items := st.items ++ [newItem]
          history := log_history_event st.history li.name "restocked" now
          prices := log_price st.prices li.name (some effStore) (li.price.getD 0) now
          nextItemId := st.nextItemId + 1 },
       ⟨st.nextItemId, li.name, "added"⟩)

/-- The whole reconciliation loop, collecting the `added` report. -/
def processReceipt (hint : String) (images : String → Option String × Option String)
    (now : ℤ) (st : AppState) : List LineItem → AppState × List ReceiptAction
  | [] => (st, [])
  | li :: rest =>
      let step := processLine hint images now st li
      let restRun := processReceipt hint images now step.1 rest
      (restRun.1, step.2 :: restRun.2)

/-- `upload_receipt` after the file is saved (`app.py:552-590`). The
extraction step (`analyze_receipt_image`, `app.py:248-285`) calls the
oracle and runs `json.loads` over the fence-stripped text; its outcome is
passed in as `parseResult`, `.error` when the response is not parseable
as a JSON array of objects — the exception propagates to the handler's
`except` before any image fetch or database write. -/
def upload_receipt (parseResult : Except String (List LineItem)) (hint : String)
    (images : String → Option String × Option String) (now : ℤ)
    (st : AppState) : AppState × UploadResp :=
  match parseResult with
  | .error e => (st, .serverError e)
  | .ok items =>
      let run := processReceipt hint images now st items
      (run.1, .success run.2 run.2.length)

/-! ## Item update (`update_item`, `app.py:330-373`) -/

/-- The JSON body of a PUT: each listed key is updated when present. -/
structure UpdateData where
  name : Option String
  description : Option String
  category : Option String
  price : Option ℚ
  status : Option String
  quantity : Option ℤ
  store : Option String
  deriving DecidableEq, Repr

/-- The dynamic `UPDATE items SET ...` (`app.py:334-343`) applied to one
row: present fields overwrite, `date_modified` always refreshed. -/
def applyUpdate (d : UpdateData) (now : ℤ) (it : InventoryItem) : InventoryItem :=
  { it with
    name := d.name.getD it.name
    description := d.description.getD it.description
    category := d.category.getD it.category
    price := d.price.getD it.price
    status := d.status.getD it.status
    quantity := d.quantity.getD it.quantity
    store := match d.store with | some s => some s | none => it.store
    date_modified := now }

/-- Steps one and two of `update_item` (`app.py:334-349`): the dynamic
field UPDATE, then — when price or store was supplied — the re-read of
the row and the price re-log. The second component is `none` when the
re-read found no row (`dict(...fetchone())` raises); the first component
is the state already committed by then. -/
def updateFieldsAndPrice (st : AppState) (item_id : Nat) (d : UpdateData)
    (now : ℤ) : AppState × Option AppState :=
  let st1 := { st with
    items := st.items.map (fun it => if it.id = item_id then applyUpdate d now it else it) }
  (st1,
   if d.price.isSome ∨ d.store.isSome then
     match st1.items.find? (fun it => it.id = item_id) with
     | none => none
     | some it =>
         some { st1 with prices := log_price st1.prices it.name it.store it.price now }
   else some st1)

/-- Step three of `update_item` (`app.py:351-370`): the status-transition
bookkeeping against the shopping list. The `Bool` is false when the
`needed` branch re-read found no row (the handler raises there). -/
def updateStatusStep (st2 : AppState) (item_id : Nat) (d : UpdateData)
    (now : ℤ) : AppState × Bool :=
  if d.status = some "needed" then
    match st2.items.find? (fun it => it.id = item_id) with
    | none => (st2, false)
    | some it =>
        let st3 := { st2 with
          history := log_history_event st2.history it.name "needed" now }
        match st3.shopping.find? (fun e => e.item_id = some item_id) with
        | none =>
            ({ st3 with
                shopping := st3.shopping ++
                  [⟨st3.nextShopId, some item_id, it.name, it.description,
                    it.category, it.price, it.image_url, it.image_local,
                    it.store, now⟩]
                nextShopId := st3.nextShopId + 1 }, true)
        | some _ =>
            ({ st3 with
                shopping := st3.shopping.map (fun e =>
                  if e.item_id = some item_id then
                    { e with
                      name := it.name
                      description := it.description
                      category := it.category
                      price := it.price
                      store := it.store }
                  else e) }, true)
  else if d.status = some "have" then
    ({ st2 with
        shopping := st2.shopping.filter (fun e => e.item_id ≠ some item_id) }, true)
  else (st2, true)

/-- `update_item(item_id)` (`app.py:330-373`). The returned `Bool` is
false when the handler raises after its first committed write; the state
returned is what was committed up to that point. -/
def update_item (st : AppState) (item_id : Nat) (d : UpdateData) (now : ℤ) :
    AppState × Bool :=
  match updateFieldsAndPrice st item_id d now with
  | (st1, none) => (st1, false)
  | (_, some st2) => updateStatusStep st2 item_id d now

/-! ## Shopping-list purchase (`remove_from_shopping_list`, `app.py:444-457`) -/

/-- `remove_from_shopping_list(item_id)` where the path parameter is the
shopping-list row id. `if row and row['item_id']` uses Python truthiness,
so a stored `item_id` of 0 (never produced by AUTOINCREMENT) would also be
skipped. -/
def remove_from_shopping_list (st : AppState) (entry_id : Nat) (now : ℤ) : AppState :=
  let st1 : AppState :=
    match st.shopping.find? (fun e => e.id = entry_id) with
    | some r =>
        match r.item_id with
        | some iid =>
            if iid ≠ 0 then
              let items' : List InventoryItem := st.items.map (fun it =>
                if it.id = iid then { it with status := "have", date_modified := now }
                else it)
              match st.items.find? (fun it => it.id = iid) with
              | some purchased =>
                  { st with
                      items := items'
                      history := log_history_event st.history purchased.name "restocked" now }
              | none => { st with items := items' }
            else st
        | none => st
    | none => st
  { st1 with shopping := st1.shopping.filter (fun e => e.id ≠ entry_id) }

/-! ## Restock-cycle suggestions (`get_suggestions`, `app.py:469-511`) -/

/-- One element of the suggestions JSON (`app.py:496-508`). -/
structure Suggestion where
  item_name : String
  category : String
  image_local : Option String
  image_url : Option String
  item_id : Option Nat
  status : Option String
  avg_cycle_days : ℤ
  days_since_restock : ℤ
  days_until_needed : ℤ
  confidence : ℚ
  restock_count : Nat
  deriving DecidableEq, Repr

/-- `(parsed[i+1] - parsed[i]).days`: `timedelta.days` floors the
difference, in seconds, toward minus infinity. -/
def tdDays (a b : ℤ) : ℤ :=
  Int.fdiv (b - a) 86400

/-- Inter-event gaps in days between adjacent timestamps (`app.py:485`). -/
def adjGaps : List ℤ → List ℤ
  | [] => []
  | [_] => []
  | a :: b :: rest => tdDays a b :: adjGaps (b :: rest)

/-- The most recently modified inventory row matching `name`
case-insensitively (`app.py:492-495`); earlier row wins a timestamp tie. -/
def latestItemFor (items : List InventoryItem) (name : String) : Option InventoryItem :=
  (items.filter (fun it => sqlNoCaseEq it.name name)).foldl
    (fun acc it =>
      match acc with
      | none => some it
      | some b => if b.date_modified < it.date_modified then some it else some b)
    none

/-- Event dates of the `restocked` events recorded under exactly `name`
(the Python grouping at `app.py:476-478` keys the dict by the exact
stored string). -/
def restockDates (hist : List HistEvent) (name : String) : List ℤ :=
  (hist.filter (fun e => e.event_type = "restocked" ∧ e.item_name = name)).map
    (fun e => e.event_date)

/-- `sorted([datetime.fromisoformat(d) for d in dates])` (`app.py:484`). -/
def sortDatesAsc (dates : List ℤ) : List ℤ :=
  insSort (fun a b => decide (a ≤ b)) dates

/-- The inter-event gaps in days over the sorted dates (`app.py:485`). -/
def cycleGapsOf (dates : List ℤ) : List ℤ :=
  adjGaps (sortDatesAsc dates)

/-- `avg_cycle = sum(cycles) / len(cycles)` (`app.py:486`). -/
def avgCycleOf (dates : List ℤ) : ℚ :=
  (((cycleGapsOf dates).map (fun c => (c : ℚ))).sum : ℚ) / ((cycleGapsOf dates).length : ℚ)

/-- The loop body at `app.py:481-508` for one name: `none` when the name
is skipped (fewer than two events, or average cycle under one day). -/
def suggestionFor (items : List InventoryItem) (today : ℤ) (name : String)
    (dates : List ℤ) : Option Suggestion :=
  if dates.length < 2 then none
  else
    if avgCycleOf dates < 1 then none
    else
      let last_restock := (sortDatesAsc dates).getLastD 0
      let days_since := Int.fdiv (today - last_restock) 86400
      let item := latestItemFor items name
      some
        { item_name := name
          category := (item.map (fun it => it.category)).getD "Other"
          image_local := (item.map (fun it => it.image_local)).getD none
          image_url := (item.map (fun it => it.image_url)).getD none
          item_id := item.map (fun it => it.id)
          status := item.map (fun it => it.status)
          avg_cycle_days := pyRound (avgCycleOf dates)
          days_since_restock := days_since
          days_until_needed := pyRound (avgCycleOf dates - (days_since : ℚ))
          confidence := pyRound2 (min ((dates.length : ℚ) / 5) 1)
          restock_count := dates.length }

/-- The distinct names of `restocked` events: the SQL ORDER BY presents
rows name-sorted, so the Python dict grouping sees groups in ascending
name order (`app.py:473-478`). -/
def restockNames (hist : List HistEvent) : List String :=
  (insSort strLeB
    ((hist.filter (fun e => e.event_type = "restocked")).map
      (fun e => e.item_name))).dedup

/-- `get_suggestions` assembled (`app.py:469-511`). -/
def get_suggestions (st : AppState) (today : ℤ) : List Suggestion :=
  insSort (fun a b => decide (a.days_until_needed ≤ b.days_until_needed))
    ((restockNames st.history).filterMap (fun n =>
      suggestionFor st.items today n (restockDates st.history n)))

/-! ## Price comparison (`get_price_history`, `app.py:513-537`) -/

/-- One row of the price-comparison JSON. -/
structure PriceRow where
  store : String
  price : ℚ
  date_recorded : ℤ
  deriving DecidableEq, Repr

/-- `get_price_history(item_id)` (`app.py:513-537`): among the
observations whose name matches the item case-insensitively, keep those
carrying their store's maximum timestamp (the self-join with the
GROUP BY store / MAX(date_recorded) subquery), then sort ascending by
price. Returns `[]` when the item id does not exist. -/
def get_price_history (st : AppState) (item_id : Nat) : List PriceRow :=
  match st.items.find? (fun it => it.id = item_id) with
  | none => []
  | some it =>
      let obs := st.prices.filter (fun o => sqlNoCaseEq o.item_name it.name)
      let latest := obs.filter (fun o =>
        obs.all (fun p => p.store ≠ o.store ∨ p.date_recorded ≤ o.date_recorded))
      insSort (fun a b => decide (a.price ≤ b.price))
        (latest.map (fun o => ⟨o.store, o.price, o.date_recorded⟩))

/-- `result[0]['cheapest'] = True` (`app.py:535-536`): the entry marked
cheapest is the head of the sorted result, when any. -/
def priceHistoryCheapest (st : AppState) (item_id : Nat) : Option PriceRow :=
  (get_price_history st item_id).head?

/-! ## Shared lemmas -/

/-- Lookup of an inventory row by primary key. -/
def findById (items : List InventoryItem) (i : Nat) : Option InventoryItem :=
  items.find? (fun it => it.id = i)

/-- `find?` commutes with a `map` that does not change the predicate. -/
theorem find?_map_of_pred {α : Type} (f : α → α) (p : α → Bool)
    (hp : ∀ x, p (f x) = p x) :
    ∀ l : List α, (l.map f).find? p = (l.find? p).map f := by
  intro l
  induction l with
  | nil => rfl
  | cons x xs ih =>
      simp only [List.map_cons, List.find?]
      rw [hp x]
      cases hx : p x
      · simpa using ih
      · rfl

/-- A successful scan of Wikipedia search results came from a candidate
whose title passed the containment test and whose summary carried the
thumbnail. -/
theorem wikiScan_eq_some {env : WikiEnv} {qws : List String} {thumb : String} :
    ∀ {l : List String}, wikiScan env qws l = some thumb →
    ∃ t ∈ l, titleAccept qws t = true ∧
      (env.page t).status = 200 ∧ (env.page t).thumbnail = some thumb := by
  intro l
  induction l with
  | nil => intro h; simp [wikiScan] at h
  | cons t ts ih =>
      intro h
      rw [wikiScan] at h
      by_cases ha : titleAccept qws t = true
      · rw [if_pos ha] at h
        by_cases hs : (env.page t).status = 200
        · rw [if_pos hs] at h
          cases hth : (env.page t).thumbnail with
          | some th =>
              rw [hth] at h
              exact ⟨t, List.mem_cons_self t ts, ha, hs, by
                simp only [Option.some.injEq] at h; rw [hth, h]⟩
          | none =>
              rw [hth] at h
              obtain ⟨u, hu, h1, h2, h3⟩ := ih h
              exact ⟨u, List.mem_cons_of_mem t hu, h1, h2, h3⟩
        · rw [if_neg hs] at h
          obtain ⟨u, hu, h1, h2, h3⟩ := ih h
          exact ⟨u, List.mem_cons_of_mem t hu, h1, h2, h3⟩
      · rw [if_neg ha] at h
        obtain ⟨u, hu, h1, h2, h3⟩ := ih h
        exact ⟨u, List.mem_cons_of_mem t hu, h1, h2, h3⟩

/-- When every candidate fails the containment test the scan yields
nothing. -/
theorem wikiScan_eq_none {env : WikiEnv} {qws : List String} :
    ∀ {l : List String}, (∀ t ∈ l, titleAccept qws t = false) →
    wikiScan env qws l = none := by
  intro l
  induction l with
  | nil => intro _; rfl
  | cons t ts ih =>
      intro h
      rw [wikiScan, if_neg, ih]
      · intro u hu; exact h u (List.mem_cons_of_mem t hu)
      · simp [h t (List.mem_cons_self t ts)]

/-- C3: the encyclopedia (Wikipedia) provider accepts a candidate only if
every query word longer than two characters appears, case-insensitively,
as a substring of the candidate's title; for the query "apple sauce" it
rejects a candidate titled "Apple" and accepts "Applesauce (condiment)";
when every candidate fails the test, or no query word is longer than two
characters, it returns no result. -/
theorem wikipedia_query_word_containment :
    (∀ (env : WikiEnv) (name thumb : String),
        fetch_from_wikipedia env name = some thumb →
        ∃ t ∈ env.searchResults, titleAccept (queryWords name) t = true ∧
          (env.page t).status = 200 ∧ (env.page t).thumbnail = some thumb) ∧
    (∀ (env : WikiEnv) (name : String),
        (∀ t ∈ env.searchResults, titleAccept (queryWords name) t = false) →
        fetch_from_wikipedia env name = none) ∧
    (∀ (env : WikiEnv) (name : String),
        queryWords name = [] → fetch_from_wikipedia env name = none) ∧
    (∀ pg : String → PageResp,
        fetch_from_wikipedia ⟨200, ["Apple"], pg⟩ "apple sauce" = none) ∧
    (fetch_from_wikipedia
        ⟨200, ["Apple", "Applesauce (condiment)"], fun _ => ⟨200, some "thumb.jpg"⟩⟩
        "apple sauce" = some "thumb.jpg") := by
  refine ⟨?_, ?_, ?_, ?_, ?_⟩
  · intro env name thumb h
    rw [fetch_from_wikipedia] at h
    by_cases hs : env.searchStatus ≠ 200
    · rw [if_pos hs] at h; exact absurd h (by simp)
    · rw [if_neg hs] at h
      by_cases hq : (queryWords name).isEmpty
      · rw [if_pos hq] at h; exact absurd h (by simp)
      · rw [if_neg hq] at h
        exact wikiScan_eq_some h
  · intro env name hrej
    rw [fetch_from_wikipedia]
    by_cases hs : env.searchStatus ≠ 200
    · rw [if_pos hs]
    · rw [if_neg hs]
      by_cases hq : (queryWords name).isEmpty
      · rw [if_pos hq]
      · rw [if_neg hq]
        exact wikiScan_eq_none hrej
  · intro env name hq
    rw [fetch_from_wikipedia]
    by_cases hs : env.searchStatus ≠ 200
    · rw [if_pos hs]
    · rw [if_neg hs, if_pos (by simp [hq])]
  · intro pg
    rw [fetch_from_wikipedia, if_neg (by simp), if_neg (by decide)]
    exact wikiScan_eq_none (by intro t ht; simp at ht; subst ht; decide)
  · decide

/-- Witness for C3: the general acceptance direction applied to a
one-candidate environment around "Applesauce (condiment)". -/
theorem wikipedia_query_word_containment_witness :
    ∃ t ∈ ["Applesauce (condiment)"], titleAccept (queryWords "apple sauce") t = true ∧
      ((fun (_ : String) => PageResp.mk 200 (some "x.jpg")) t).status = 200 ∧
      ((fun (_ : String) => PageResp.mk 200 (some "x.jpg")) t).thumbnail = some "x.jpg" :=
  wikipedia_query_word_containment.1
    ⟨200, ["Applesauce (condiment)"], fun _ => ⟨200, some "x.jpg"⟩⟩
    "apple sauce" "x.jpg" (by decide)

/-- C4 counterexample: the store "Unknown" is non-empty and the price 4
is positive, yet `log_price` writes no `PriceObservation` row — the code
also excludes the literal store name 'Unknown', so "a row is appended
exactly when store and price are present and price > 0" is false. -/
theorem price_observation_unknown_store_counterexample :
    ("Unknown" : String) ≠ "" ∧ ((0 : ℚ) < 4) ∧
      log_price [] "Milk" (some "Unknown") 4 0 = [] := by
  refine ⟨by decide, by decide, ?_⟩
  rw [log_price, if_neg]
  simp

/-- C4 (amended): a PriceObservation row is appended exactly when the
store is present, non-empty, and not the literal 'Unknown', and the
price is positive; a line item with price 0 (or negative) or an
empty/absent store never produces a row. On the reconciliation paths the
effective store is the line item's own store defaulted to the receipt
hint (with an additional empty-string fallback to the hint on the insert
path). -/
theorem price_observation_gating :
    (∀ (ph : List PriceObs) (n s : String) (p : ℚ) (t : ℤ),
        s ≠ "" → s ≠ "Unknown" → 0 < p →
        log_price ph n (some s) p t = ph ++ [⟨n, s, p, t⟩]) ∧
    (∀ (ph : List PriceObs) (n s : String) (p : ℚ) (t : ℤ),
        p ≤ 0 ∨ s = "" ∨ s = "Unknown" →
        log_price ph n (some s) p t = ph) ∧
    (∀ (ph : List PriceObs) (n : String) (p : ℚ) (t : ℤ),
        log_price ph n none p t = ph) ∧
    (∀ (hint : String) (images : String → Option String × Option String)
        (now : ℤ) (st : AppState) (li : LineItem) (ex : InventoryItem),
        st.items.find? (fun it => sqlNoCaseEq it.name li.name) = some ex →
        ((processLine hint images now st li).1).prices =
          log_price st.prices li.name (some (li.store.getD hint)) (li.price.getD 0) now) ∧
    (∀ (hint : String) (images : String → Option String × Option String)
        (now : ℤ) (st : AppState) (li : LineItem),
        st.items.find? (fun it => sqlNoCaseEq it.name li.name) = none →
        ((processLine hint images now st li).1).prices =
          log_price st.prices li.name (some (pyOrStr (li.store.getD hint) hint))
            (li.price.getD 0) now) := by
  refine ⟨?_, ?_, ?_, ?_, ?_⟩
  · intro ph n s p t hs hu hp
    rw [log_price, if_pos ⟨hs, hu, ne_of_gt hp, hp⟩]
  · intro ph n s p t h
    rw [log_price, if_neg]
    rcases h with h | h | h
    · rintro ⟨-, -, -, h4⟩; exact absurd h4 (not_lt.mpr h)
    · rintro ⟨h1, -⟩; exact h1 h
    · rintro ⟨-, h2, -⟩; exact h2 h
  · intro ph n p t; rfl
  · intro hint images now st li ex h
    simp [processLine, h]
  · intro hint images now st li h
    simp [processLine, h]

/-- Witness for C4 (amended): a positive price at a real store appends
exactly that observation row. -/
theorem price_observation_gating_witness :
    log_price [] "Milk" (some "Kroger") 4 7 = [⟨"Milk", "Kroger", 4, 7⟩] :=
  price_observation_gating.1 [] "Milk" "Kroger" 4 7 (by decide) (by decide) (by decide)

/-- C7: on the reconciliation update path, the matched item's image
fields take the newly resolved values only when the stored field is NULL
or empty; a non-empty stored image survives unchanged (the
`COALESCE(NULLIF(...," "),?)` at `app.py:569`). -/
theorem reconcile_never_overwrites_present_image
    (hint : String) (images : String → Option String × Option String)
    (now : ℤ) (st : AppState) (li : LineItem) (ex : InventoryItem)
    (hname : st.items.find? (fun it => sqlNoCaseEq it.name li.name) = some ex)
    (hid : st.items.find? (fun it => it.id = ex.id) = some ex) :
    (∀ s, ex.image_url = some s → s ≠ "" →
        (findById ((processLine hint images now st li).1).items ex.id).map
          (fun it => it.image_url) = some (some s)) ∧
    (∀ s, ex.image_local = some s → s ≠ "" →
        (findById ((processLine hint images now st li).1).items ex.id).map
          (fun it => it.image_local) = some (some s)) ∧
    ((ex.image_url = none ∨ ex.image_url = some "") →
        (findById ((processLine hint images now st li).1).items ex.id).map
          (fun it => it.image_url) = some (images li.name).2) ∧
    ((ex.image_local = none ∨ ex.image_local = some "") →
        (findById ((processLine hint images now st li).1).items ex.id).map
          (fun it => it.image_local) = some (images li.name).1) := by
  have key : findById ((processLine hint images now st li).1).items ex.id =
      some { ex with
        status := "have"
        quantity := ex.quantity + 1
        date_modified := now
        image_url := coalesceNullif ex.image_url (images li.name).2
        image_local := coalesceNullif ex.image_local (images li.name).1 } := by
    simp only [processLine, hname, findById]
    rw [find?_map_of_pred _ _ (by intro x; by_cases h : x.id = ex.id <;> simp [h]), hid]
    simp
  refine ⟨?_, ?_, ?_, ?_⟩
  · intro s hs hne
    rw [key]
    simp [coalesceNullif, hs, hne]
  · intro s hs hne
    rw [key]
    simp [coalesceNullif, hs, hne]
  · intro h
    rw [key]
    rcases h with h | h <;> simp [coalesceNullif, h]
  · intro h
    rw [key]
    rcases h with h | h <;> simp [coalesceNullif, h]

/-- Witness for C7: an item "Bananas" that already carries an image URL
keeps it after reconciling a line item "bananas" that resolved to a new
image. -/
theorem reconcile_never_overwrites_present_image_witness :
    (findById ((processLine "Kroger" (fun _ => (some "/new.jpg", some "http://new"))
        5 ⟨[⟨1, "Bananas", "", "Fridge", 0, some "http://old", none, "have", 2,
              some "Kroger", 0, 0⟩], [], [], [], 2, 1⟩
        ⟨"bananas", none, none, none, none⟩).1).items 1).map
      (fun it => it.image_url) = some (some "http://old") :=
  (reconcile_never_overwrites_present_image "Kroger"
      (fun _ => (some "/new.jpg", some "http://new")) 5
      ⟨[⟨1, "Bananas", "", "Fridge", 0, some "http://old", none, "have", 2,
          some "Kroger", 0, 0⟩], [], [], [], 2, 1⟩
      ⟨"bananas", none, none, none, none⟩
      ⟨1, "Bananas", "", "Fridge", 0, some "http://old", none, "have", 2,
        some "Kroger", 0, 0⟩
      (by decide) (by decide)).1 "http://old" rfl (by decide)

/-- C1: a line item whose name matches an existing item case-insensitively
takes the update path: no insert (item count unchanged), quantity +1,
status 'have', exactly one 'restocked' history event per occurrence, other
items untouched; a receipt carrying the same name twice against an item
with quantity 2 ends with quantity 4 and two restocked events; "bananas"
matches "Bananas". -/
theorem receipt_merge_update_path :
    (∀ (hint : String) (images : String → Option String × Option String)
        (now : ℤ) (st : AppState) (li : LineItem) (ex : InventoryItem),
        st.items.find? (fun it => sqlNoCaseEq it.name li.name) = some ex →
        st.items.find? (fun it => it.id = ex.id) = some ex →
        ((processLine hint images now st li).2).action = "updated" ∧
        ((processLine hint images now st li).1).items.length = st.items.length ∧
        (findById ((processLine hint images now st li).1).items ex.id).map
          (fun it => (it.quantity, it.status)) = some (ex.quantity + 1, "have") ∧
        ((processLine hint images now st li).1).history =
          st.history ++ [⟨li.name, "restocked", now⟩] ∧
        (∀ it ∈ st.items, it.id ≠ ex.id →
          it ∈ ((processLine hint images now st li).1).items)) ∧
    (let milk : InventoryItem :=
      ⟨1, "Whole Milk", "", "Fridge", 0, none, none, "have", 2, some "Kroger", 0, 0⟩
     let st0 : AppState := ⟨[milk], [], [], [], 2, 1⟩
     let li : LineItem := ⟨"Whole Milk", none, none, none, none⟩
     ((findById (processReceipt "" (fun _ => (none, none)) 9 st0 [li, li]).1.items 1).map
        (fun it => it.quantity) = some 4) ∧
     (processReceipt "" (fun _ => (none, none)) 9 st0 [li, li]).1.history =
        [⟨"Whole Milk", "restocked", 9⟩, ⟨"Whole Milk", "restocked", 9⟩] ∧
     (processReceipt "" (fun _ => (none, none)) 9 st0 [li, li]).2 =
        [⟨1, "Whole Milk", "updated"⟩, ⟨1, "Whole Milk", "updated"⟩]) ∧
    (let ban : InventoryItem :=
      ⟨1, "Bananas", "", "Fridge", 0, none, none, "have", 1, none, 0, 0⟩
     let step := processLine "" (fun _ => (none, none)) 3
        ⟨[ban], [], [], [], 2, 1⟩ ⟨"bananas", none, none, none, none⟩
     step.2.action = "updated" ∧ step.1.items.length = 1) := by
  refine ⟨?_, by decide, by decide⟩
  intro hint images now st li ex hname hid
  refine ⟨by simp [processLine, hname], by simp [processLine, hname], ?_, ?_, ?_⟩
  · simp only [processLine, hname, findById]
    rw [find?_map_of_pred _ _ (by intro x; by_cases h : x.id = ex.id <;> simp [h]), hid]
    simp
  · simp [processLine, hname, log_history_event]
  · intro it hit hne
    simp only [processLine, hname]
    exact List.mem_map.mpr ⟨it, hit, by simp [hne]⟩

/-- Witness for C1: the general update-path facts applied to a concrete
one-item inventory matched case-insensitively. -/
theorem receipt_merge_update_path_witness :
    ((processLine "" (fun _ => (none, none)) 3
        ⟨[⟨7, "Bananas", "", "Fridge", 0, none, none, "have", 5, none, 0, 0⟩],
          [], [], [], 8, 1⟩ ⟨"bananas", none, none, none, none⟩).2).action = "updated" ∧
    ((processLine "" (fun _ => (none, none)) 3
        ⟨[⟨7, "Bananas", "", "Fridge", 0, none, none, "have", 5, none, 0, 0⟩],
          [], [], [], 8, 1⟩ ⟨"bananas", none, none, none, none⟩).1).items.length = 1 ∧
    (findById ((processLine "" (fun _ => (none, none)) 3
        ⟨[⟨7, "Bananas", "", "Fridge", 0, none, none, "have", 5, none, 0, 0⟩],
          [], [], [], 8, 1⟩ ⟨"bananas", none, none, none, none⟩).1).items 7).map
      (fun it => (it.quantity, it.status)) = some (6, "have") := by
  have h := receipt_merge_update_path.1 "" (fun _ => (none, none)) 3
    ⟨[⟨7, "Bananas", "", "Fridge", 0, none, none, "have", 5, none, 0, 0⟩],
      [], [], [], 8, 1⟩ ⟨"bananas", none, none, none, none⟩
    ⟨7, "Bananas", "", "Fridge", 0, none, none, "have", 5, none, 0, 0⟩
    (by decide) (by decide)
  exact ⟨h.1, h.2.1, h.2.2.1⟩

/-- The cache-directory file name written on a successful download is
never the empty string. -/
theorem cache_path_ne_empty (h ext : String) :
    IMAGE_CACHE_DIR ++ "/" ++ h ++ ext ≠ "" := by
  intro he
  have hl := congrArg String.length he
  simp [IMAGE_CACHE_DIR, String.length_append] at hl
  exact absurd hl.1.1 (by decide)

/-- Shape of the miss path when it returns a local path: the cascade
found a URL, the download succeeded, the path is the fingerprint-derived
file, and the upserted entry records both. -/
theorem fetchMiss_some_shape {env : ImgEnv} {st : ImgState} {name query h0 : String}
    {now : ℤ} {p : String}
    (h : (fetchProductImageMiss env st name query h0 now).1.1 = some p) :
    ∃ u ext, resolveCascade env name = some u ∧ env.download u = some ext ∧
      p = IMAGE_CACHE_DIR ++ "/" ++ h0 ++ ext ∧
      fetchProductImageMiss env st name query h0 now =
        ((some p, some u),
         ⟨⟨h0, query, some p, some u, now⟩ ::
            st.cache.filter (fun c => c.query_hash ≠ h0), p :: st.fs⟩,
         true) := by
  cases hu : resolveCascade env name with
  | none =>
      rw [fetchProductImageMiss, hu] at h
      simp at h
  | some u =>
      rw [fetchProductImageMiss, hu] at h
      dsimp only at h
      cases hd : env.download u with
      | none =>
          rw [hd] at h
          simp at h
      | some ext =>
          rw [hd] at h
          dsimp only at h
          simp only [Option.some.injEq] at h
          refine ⟨u, ext, rfl, hd, h.symm, ?_⟩
          rw [fetchProductImageMiss, hu]
          dsimp only
          rw [hd]
          dsimp only
          rw [h]

/-- After a first call that returned a local path, the repeated call is a
cache hit: the branch condition at `app.py:170` holds for the state the
first call left behind. -/
theorem fetch_again_after_path (env : ImgEnv) (st : ImgState) (name desc : String)
    (t1 t2 : ℤ) (p : String)
    (h : (fetch_product_image env st name desc t1).1.1 = some p) :
    (fetch_product_image env (fetch_product_image env st name desc t1).2.1
        name desc t2).2.2 = false ∧
    (fetch_product_image env (fetch_product_image env st name desc t1).2.1
        name desc t2).1 = (fetch_product_image env st name desc t1).1 := by
  have second_after_miss :
      fetch_product_image env st name desc t1 =
        fetchProductImageMiss env st name (imgQuery name desc)
          (queryFingerprint (imgQuery name desc)) t1 →
      (fetch_product_image env (fetch_product_image env st name desc t1).2.1
          name desc t2).2.2 = false ∧
      (fetch_product_image env (fetch_product_image env st name desc t1).2.1
          name desc t2).1 = (fetch_product_image env st name desc t1).1 := by
    intro hm
    rw [hm] at h
    obtain ⟨u, ext, -, -, hp, hEq⟩ := fetchMiss_some_shape h
    rw [hm, hEq]
    have hfind :
        ((⟨queryFingerprint (imgQuery name desc), imgQuery name desc, some p, some u,
            t1⟩ : CacheEntry) :: st.cache.filter
              (fun c => c.query_hash ≠ queryFingerprint (imgQuery name desc))).find?
          (fun c => c.query_hash = queryFingerprint (imgQuery name desc)) =
        some ⟨queryFingerprint (imgQuery name desc), imgQuery name desc, some p,
          some u, t1⟩ :=
      List.find?_cons_of_pos _ (by simp)
    rw [fetch_product_image]
    simp only [hfind]
    rw [if_pos ⟨by rw [hp]; exact cache_path_ne_empty _ ext, by simp⟩]
    exact ⟨rfl, rfl⟩
  cases hc : st.cache.find?
      (fun c => c.query_hash = queryFingerprint (imgQuery name desc)) with
  | none =>
      exact second_after_miss (by rw [fetch_product_image]; simp only [hc])
  | some c =>
      cases hlp : c.local_path with
      | none =>
          exact second_after_miss (by rw [fetch_product_image]; simp only [hc, hlp])
      | some q =>
          by_cases hq : q ≠ "" ∧ st.fs.contains q
          · have hit : fetch_product_image env st name desc t1 =
                ((some q, c.source_url), st, false) := by
              rw [fetch_product_image]; simp only [hc, hlp]; rw [if_pos hq]
            have hit2 : fetch_product_image env st name desc t2 =
                ((some q, c.source_url), st, false) := by
              rw [fetch_product_image]; simp only [hc, hlp]; rw [if_pos hq]
            rw [hit, hit2]
            exact ⟨rfl, rfl⟩
          · exact second_after_miss (by
              rw [fetch_product_image]; simp only [hc, hlp]; rw [if_neg hq])

/-- C2 counterexample: when every provider fails, the first call stores a
cache entry with a null local path, and the second call — contrary to the
claim — takes the miss path and queries the providers again (`queried`
flag true). -/
theorem image_cache_null_path_requery_counterexample :
    (fetch_product_image
        ⟨false, none, none, ⟨404, [], fun _ => ⟨404, none⟩⟩, fun _ => none⟩
        ⟨[], []⟩ "Widget" "" 0).1.1 = none ∧
    ((fetch_product_image
        ⟨false, none, none, ⟨404, [], fun _ => ⟨404, none⟩⟩, fun _ => none⟩
        ⟨[], []⟩ "Widget" "" 0).2.1).cache =
      [⟨"widget", "Widget", none, none, 0⟩] ∧
    (fetch_product_image
        ⟨false, none, none, ⟨404, [], fun _ => ⟨404, none⟩⟩, fun _ => none⟩
        ((fetch_product_image
            ⟨false, none, none, ⟨404, [], fun _ => ⟨404, none⟩⟩, fun _ => none⟩
            ⟨[], []⟩ "Widget" "" 0).2.1) "Widget" "" 1).2.2 = true := by
  refine ⟨rfl, rfl, rfl⟩

/-- Witness for C2 (amended): with a working provider the first call
caches a file and the second call issues no provider request and returns
the same pair. -/
theorem fetch_again_after_path_witness :
    (fetch_product_image
        ⟨false, none, some "http://u/i.png", ⟨404, [], fun _ => ⟨404, none⟩⟩,
          fun _ => some ".png"⟩
        ((fetch_product_image
            ⟨false, none, some "http://u/i.png", ⟨404, [], fun _ => ⟨404, none⟩⟩,
              fun _ => some ".png"⟩ ⟨[], []⟩ "Widget" "" 0).2.1)
        "Widget" "" 1).2.2 = false ∧
    (fetch_product_image
        ⟨false, none, some "http://u/i.png", ⟨404, [], fun _ => ⟨404, none⟩⟩,
          fun _ => some ".png"⟩
        ((fetch_product_image
            ⟨false, none, some "http://u/i.png", ⟨404, [], fun _ => ⟨404, none⟩⟩,
              fun _ => some ".png"⟩ ⟨[], []⟩ "Widget" "" 0).2.1)
        "Widget" "" 1).1 =
      (fetch_product_image
        ⟨false, none, some "http://u/i.png", ⟨404, [], fun _ => ⟨404, none⟩⟩,
          fun _ => some ".png"⟩ ⟨[], []⟩ "Widget" "" 0).1 :=
  fetch_again_after_path
    ⟨false, none, some "http://u/i.png", ⟨404, [], fun _ => ⟨404, none⟩⟩,
      fun _ => some ".png"⟩ ⟨[], []⟩ "Widget" "" 0 1
    "/data/image_cache/widget.png" rfl

/-- C8 counterexample: on a malformed extraction the handler answers
`{'error': str(e)}` with status 500 (`app.py:590`) — that payload carries
no `count` field at all, so it does not carry "a count of zero". -/
theorem upload_error_count_counterexample :
    respCount ((upload_receipt
        (Except.error "Expecting value: line 1 column 1 (char 0)") ""
        (fun _ => (none, none)) 0 ⟨[], [], [], [], 1, 1⟩).2) ≠ some 0 := by
  decide

/-- C8 (amended): when the extraction oracle's response fails to parse as
a JSON array the whole ingestion fails terminally: the state is returned
untouched (no InventoryItem, ItemHistoryEvent, PriceObservation or
ShoppingListEntry mutation), and the caller receives an error response
carrying the explanation of the failure — and no item count. -/
theorem upload_receipt_parse_failure_terminal
    (e hint : String) (images : String → Option String × Option String)
    (now : ℤ) (st : AppState) :
    (upload_receipt (Except.error e) hint images now st).1 = st ∧
    (upload_receipt (Except.error e) hint images now st).2 =
      UploadResp.serverError e ∧
    respCount ((upload_receipt (Except.error e) hint images now st).2) = none :=
  ⟨rfl, rfl, rfl⟩

/-- C10: purchasing a shopping-list entry that references an existing
item deletes the entry, sets the item's status to 'have' with a fresh
modified timestamp, and appends one 'restocked' event under the item's
name; other items, and the price log, are untouched. An entry with a
null `item_id` is simply deleted with no other state change. -/
theorem shopping_purchase_restocks :
    (∀ (st : AppState) (entry_id : Nat) (now : ℤ) (e : ShopEntry) (iid : Nat)
        (it : InventoryItem),
        st.shopping.find? (fun x => x.id = entry_id) = some e →
        e.item_id = some iid → iid ≠ 0 →
        st.items.find? (fun x => x.id = iid) = some it →
        (remove_from_shopping_list st entry_id now).shopping =
          st.shopping.filter (fun x => x.id ≠ entry_id) ∧
        (findById (remove_from_shopping_list st entry_id now).items iid).map
          (fun x => (x.status, x.date_modified)) = some ("have", now) ∧
        (remove_from_shopping_list st entry_id now).history =
          st.history ++ [⟨it.name, "restocked", now⟩] ∧
        (∀ x ∈ st.items, x.id ≠ iid →
          x ∈ (remove_from_shopping_list st entry_id now).items) ∧
        (remove_from_shopping_list st entry_id now).prices = st.prices) ∧
    (∀ (st : AppState) (entry_id : Nat) (now : ℤ) (e : ShopEntry),
        st.shopping.find? (fun x => x.id = entry_id) = some e →
        e.item_id = none →
        remove_from_shopping_list st entry_id now =
          { st with shopping := st.shopping.filter (fun x => x.id ≠ entry_id) }) := by
  constructor
  · intro st entry_id now e iid it he hiid hnz hfind
    refine ⟨by simp [remove_from_shopping_list, he, hiid, hnz, hfind], ?_,
      by simp [remove_from_shopping_list, he, hiid, hnz, hfind, log_history_event],
      ?_, by simp [remove_from_shopping_list, he, hiid, hnz, hfind]⟩
    · simp only [remove_from_shopping_list, he, hiid, hnz, findById, ite_not,
        if_false, hfind]
      rw [find?_map_of_pred _ _ (by intro x; by_cases hx : x.id = iid <;> simp [hx]),
        hfind]
      have hidit : it.id = iid := by simpa using List.find?_some hfind
      simp [hidit]
    · intro x hx hne
      simp only [remove_from_shopping_list, he, hiid, hnz, findById, ite_not,
        if_false, hfind]
      exact List.mem_map.mpr ⟨x, hx, by simp [hne]⟩
  · intro st entry_id now e he hnone
    simp [remove_from_shopping_list, he, hnone]

/-- Witness for C10: purchasing the single entry for item 3 marks the
item 'have' and logs a restock under its name. -/
theorem shopping_purchase_restocks_witness :
    (remove_from_shopping_list
        ⟨[⟨3, "Oat Milk", "", "Fridge", 0, none, none, "needed", 1, none, 0, 0⟩],
         [⟨4, some 3, "Oat Milk", "", "Fridge", 0, none, none, none, 0⟩],
         [], [], 4, 5⟩ 4 11).shopping = [] ∧
    (remove_from_shopping_list
        ⟨[⟨3, "Oat Milk", "", "Fridge", 0, none, none, "needed", 1, none, 0, 0⟩],
         [⟨4, some 3, "Oat Milk", "", "Fridge", 0, none, none, none, 0⟩],
         [], [], 4, 5⟩ 4 11).history = [⟨"Oat Milk", "restocked", 11⟩] := by
  have h := shopping_purchase_restocks.1
    ⟨[⟨3, "Oat Milk", "", "Fridge", 0, none, none, "needed", 1, none, 0, 0⟩],
     [⟨4, some 3, "Oat Milk", "", "Fridge", 0, none, none, none, 0⟩],
     [], [], 4, 5⟩ 4 11
    ⟨4, some 3, "Oat Milk", "", "Fridge", 0, none, none, none, 0⟩ 3
    ⟨3, "Oat Milk", "", "Fridge", 0, none, none, "needed", 1, none, 0, 0⟩
    (by decide) rfl (by decide) (by decide)
  exact ⟨by rw [h.1]; rfl, by rw [h.2.2.1]; rfl⟩

/-! ## Shopping-list uniqueness (C9) -/

/-- Number of shopping-list rows referencing inventory id `i`. -/
def shopCountFor (st : AppState) (i : Nat) : Nat :=
  (st.shopping.filter (fun e => e.item_id = some i)).length

/-- A `filter` count is unchanged by a `map` that preserves the filtered
predicate. -/
theorem length_filter_map_of_pred {α : Type} (g : α → α) (p : α → Bool)
    (hp : ∀ x, p (g x) = p x) :
    ∀ l : List α, ((l.map g).filter p).length = (l.filter p).length := by
  intro l
  induction l with
  | nil => rfl
  | cons x xs ih =>
      by_cases hx : p x = true
      · simp [List.filter_cons, hp, hx, ih]
      · simp only [Bool.not_eq_true] at hx
        simp [List.filter_cons, hp, hx, ih]

/-- A conjunctive filter never keeps more elements than the plain one. -/
theorem length_filter_and_le {α : Type} (p q : α → Bool) :
    ∀ l : List α, (l.filter (fun a => p a && q a)).length ≤ (l.filter p).length := by
  intro l
  induction l with
  | nil => exact Nat.le_refl 0
  | cons x xs ih =>
      by_cases hq : q x = true <;> by_cases hp : p x = true <;>
        simp only [List.filter_cons, hq, hp, Bool.and_true, Bool.and_false,
          Bool.true_and, Bool.false_and, if_pos, if_neg, List.length_cons] <;>
        simp <;> omega

/-- Filtering twice never yields more matches than filtering once. -/
theorem length_filter_filter_le {α : Type} (p q : α → Bool) :
    ∀ l : List α, ((l.filter q).filter p).length ≤ (l.filter p).length := by
  intro l
  rw [List.filter_filter]
  exact length_filter_and_le p q l

/-- The status-transition step keeps at most one entry per item id, puts
exactly one entry there on `needed`, zero on `have`, and updates in place
(same list length) when an entry already exists. -/
theorem updateStatusStep_counts (st2 : AppState) (item_id : Nat) (d : UpdateData)
    (now : ℤ) (hinv : ∀ i, shopCountFor st2 i ≤ 1) :
    (∀ i, shopCountFor (updateStatusStep st2 item_id d now).1 i ≤ 1) ∧
    (d.status = some "needed" → (updateStatusStep st2 item_id d now).2 = true →
      shopCountFor (updateStatusStep st2 item_id d now).1 item_id = 1) ∧
    (d.status = some "have" →
      shopCountFor (updateStatusStep st2 item_id d now).1 item_id = 0) ∧
    (d.status = some "needed" → (updateStatusStep st2 item_id d now).2 = true →
      shopCountFor st2 item_id = 1 →
      (updateStatusStep st2 item_id d now).1.shopping.length = st2.shopping.length) := by
  by_cases hn : d.status = some "needed"
  · have hnh : d.status ≠ some "have" := by rw [hn]; intro hc; simp at hc
    rw [updateStatusStep, if_pos hn]
    cases hfi : st2.items.find? (fun it => it.id = item_id) with
    | none =>
        dsimp only
        exact ⟨hinv, fun _ hok => by simp at hok, fun hh => absurd hh hnh,
          fun _ hok => by simp at hok⟩
    | some it =>
        dsimp only
        cases hfs : st2.shopping.find? (fun e => e.item_id = some item_id) with
        | none =>
            dsimp only
            have hzero : (st2.shopping.filter
                (fun e => e.item_id = some item_id)).length = 0 := by
              rw [List.filter_eq_nil_iff.mpr, List.length_nil]
              rw [List.find?_eq_none] at hfs
              exact hfs
            refine ⟨?_, ?_, fun hh => absurd hh hnh, ?_⟩
            · intro i
              by_cases hi : i = item_id
              · subst hi
                simp only [shopCountFor, List.filter_append, List.length_append,
                  hzero]
                simp [List.filter_cons]
              · simp only [shopCountFor, List.filter_append, List.length_append]
                have hnew : (([⟨st2.nextShopId, some item_id, it.name,
                    it.description, it.category, it.price, it.image_url,
                    it.image_local, it.store, now⟩] : List ShopEntry).filter
                      (fun e => e.item_id = some i)).length = 0 := by
                  simp [List.filter_cons, Ne.symm hi]
                rw [hnew, Nat.add_zero]
                exact hinv i
            · intro _ _
              simp only [shopCountFor, List.filter_append, List.length_append,
                hzero]
              simp [List.filter_cons]
            · intro _ _ hone
              rw [shopCountFor] at hone
              rw [hzero] at hone
              exact absurd hone (by decide)
        | some e =>
            dsimp only
            have hpres : ∀ x : ShopEntry,
                ((if x.item_id = some item_id then
                    { x with
                      name := it.name
                      description := it.description
                      category := it.category
                      price := it.price
                      store := it.store }
                  else x) : ShopEntry).item_id = x.item_id := by
              intro x
              by_cases hx : x.item_id = some item_id <;> simp [hx]
            refine ⟨?_, ?_, fun hh => absurd hh hnh, ?_⟩
            · intro i
              rw [shopCountFor]
              dsimp only
              rw [length_filter_map_of_pred _ _ (fun x => by rw [hpres x])]
              exact hinv i
            · intro _ _
              rw [shopCountFor]
              dsimp only
              rw [length_filter_map_of_pred _ _ (fun x => by rw [hpres x])]
              have hpe : (decide (e.item_id = some item_id)) = true := by
                simpa using List.find?_some hfs
              have hge : 0 < (st2.shopping.filter
                  (fun e => e.item_id = some item_id)).length :=
                List.length_pos_of_mem (List.mem_filter.mpr
                  ⟨List.mem_of_find?_eq_some hfs, hpe⟩)
              have hle := hinv item_id
              rw [shopCountFor] at hle
              omega
            · intro _ _ _
              exact List.length_map st2.shopping _
  · by_cases hh : d.status = some "have"
    · rw [updateStatusStep, if_neg hn, if_pos hh]
      refine ⟨?_, fun hc => absurd hc hn, ?_, fun hc => absurd hc hn⟩
      · intro i
        rw [shopCountFor]
        dsimp only
        exact le_trans (length_filter_filter_le _ _ st2.shopping) (hinv i)
      · intro _
        rw [shopCountFor]
        dsimp only
        rw [List.length_eq_zero]
        refine List.filter_eq_nil_iff.mpr ?_
        intro a ha
        have hmem := (List.mem_filter.mp ha).2
        simp at hmem ⊢
        exact hmem
    · rw [updateStatusStep, if_neg hn, if_neg hh]
      exact ⟨hinv, fun hc => absurd hc hn, fun hc => absurd hc hh,
        fun hc => absurd hc hn⟩

/-- The field/price stage never touches the shopping list. -/
theorem updateFieldsAndPrice_shopping (st : AppState) (item_id : Nat)
    (d : UpdateData) (now : ℤ) :
    ((updateFieldsAndPrice st item_id d now).1.shopping = st.shopping) ∧
    (∀ st2, (updateFieldsAndPrice st item_id d now).2 = some st2 →
      st2.shopping = st.shopping) := by
  constructor
  · rfl
  · intro st2 h
    rw [updateFieldsAndPrice] at h
    dsimp only at h
    by_cases hc : d.price.isSome ∨ d.store.isSome
    · rw [if_pos hc] at h
      cases hfi : List.find? (fun it => it.id = item_id)
          (st.items.map (fun it => if it.id = item_id then applyUpdate d now it else it)) with
      | none => rw [hfi] at h; exact absurd h (by simp)
      | some it =>
          rw [hfi] at h
          simp only [Option.some.injEq] at h
          rw [← h]
    · rw [if_neg hc] at h
      simp only [Option.some.injEq] at h
      rw [← h]

/-- C9: at most one ShoppingListEntry per inventory id is preserved by
`update_item`; a successful transition to `needed` leaves exactly one
entry for the id (updating in place — same list length — when one
already existed), and a successful transition to `have` leaves none. -/
theorem shopping_list_unique_per_item (st : AppState) (item_id : Nat)
    (d : UpdateData) (now : ℤ) (hinv : ∀ i, shopCountFor st i ≤ 1) :
    (∀ i, shopCountFor (update_item st item_id d now).1 i ≤ 1) ∧
    (d.status = some "needed" → (update_item st item_id d now).2 = true →
      shopCountFor (update_item st item_id d now).1 item_id = 1) ∧
    (d.status = some "have" → (update_item st item_id d now).2 = true →
      shopCountFor (update_item st item_id d now).1 item_id = 0) ∧
    (d.status = some "needed" → (update_item st item_id d now).2 = true →
      shopCountFor st item_id = 1 →
      (update_item st item_id d now).1.shopping.length = st.shopping.length) := by
  have hsh := updateFieldsAndPrice_shopping st item_id d now
  rcases hfp : updateFieldsAndPrice st item_id d now with ⟨st1, o⟩
  cases o with
  | none =>
      have hstep : update_item st item_id d now = (st1, false) := by
        rw [update_item, hfp]
      rw [hstep]
      have h1 : st1.shopping = st.shopping := by rw [← hsh.1, hfp]
      refine ⟨?_, fun _ hok => by simp at hok, fun _ hok => by simp at hok,
        fun _ hok => by simp at hok⟩
      intro i
      rw [shopCountFor]
      dsimp only
      rw [h1]
      exact hinv i
  | some st2 =>
      have hstep : update_item st item_id d now =
          updateStatusStep st2 item_id d now := by
        rw [update_item, hfp]
      rw [hstep]
      have h2 : st2.shopping = st.shopping := by
        refine hsh.2 st2 ?_
        rw [hfp]
      have hinv2 : ∀ i, shopCountFor st2 i ≤ 1 := by
        intro i; rw [shopCountFor, h2]; exact hinv i
      have hmain := updateStatusStep_counts st2 item_id d now hinv2
      refine ⟨hmain.1, hmain.2.1, fun hh _ => hmain.2.2.1 hh, ?_⟩
      intro hne hok hone
      rw [hmain.2.2.2 hne hok (by rw [shopCountFor, h2]; exact hone), h2]

/-- Witness for C9: transitioning an inventory item to `needed` on an
empty shopping list creates exactly one entry. -/
theorem shopping_list_unique_per_item_witness :
    (∀ i, shopCountFor (update_item
        ⟨[⟨2, "Eggs", "", "Fridge", 0, none, none, "have", 1, none, 0, 0⟩],
         [], [], [], 3, 1⟩ 2
        ⟨none, none, none, none, some "needed", none, none⟩ 6).1 i ≤ 1) ∧
    shopCountFor (update_item
        ⟨[⟨2, "Eggs", "", "Fridge", 0, none, none, "have", 1, none, 0, 0⟩],
         [], [], [], 3, 1⟩ 2
        ⟨none, none, none, none, some "needed", none, none⟩ 6).1 2 = 1 := by
  have h := shopping_list_unique_per_item
    ⟨[⟨2, "Eggs", "", "Fridge", 0, none, none, "have", 1, none, 0, 0⟩],
     [], [], [], 3, 1⟩ 2
    ⟨none, none, none, none, some "needed", none, none⟩ 6
    (by intro i; simp [shopCountFor])
  exact ⟨h.1, h.2.1 rfl (by decide)⟩

/-! ## Sortedness of the stable insertion sort -/

/-- Membership is preserved by `insSorted`. -/
theorem mem_insSorted {α : Type} (le : α → α → Bool) (x a : α) :
    ∀ l : List α, (a ∈ insSorted le x l ↔ a = x ∨ a ∈ l) := by
  intro l
  induction l with
  | nil => simp [insSorted]
  | cons y ys ih =>
      rw [insSorted]
      by_cases hle : le y x = true
      · rw [if_pos hle]
        simp only [List.mem_cons, ih]
        tauto
      · rw [if_neg hle]
        simp only [List.mem_cons]

/-- Membership is preserved by `insSort`. -/
theorem mem_insSort {α : Type} (le : α → α → Bool) (a : α) :
    ∀ (l acc : List α), (a ∈ l.foldl (fun acc x => insSorted le x acc) acc ↔
      a ∈ acc ∨ a ∈ l) := by
  intro l
  induction l with
  | nil => simp
  | cons x xs ih =>
      intro acc
      simp only [List.foldl_cons, ih, mem_insSorted, List.mem_cons]
      tauto

/-- `insSorted` keeps a `≤`-chain a chain, for a total comparison. -/
theorem chain'_insSorted {α : Type} (le : α → α → Bool)
    (htot : ∀ a b, le a b = true ∨ le b a = true) (x : α) :
    ∀ l : List α, List.Chain' (fun a b => le a b = true) l →
      List.Chain' (fun a b => le a b = true) (insSorted le x l) := by
  intro l
  induction l with
  | nil => intro _; simp [insSorted]
  | cons y ys ih =>
      intro h
      rw [insSorted]
      by_cases hle : le y x = true
      · rw [if_pos hle]
        cases ys with
        | nil =>
            simp only [insSorted]
            exact List.chain'_cons.mpr ⟨hle, List.chain'_singleton x⟩
        | cons z zs =>
            have hyz : le y z = true := (List.chain'_cons.mp h).1
            have hch := ih (List.chain'_cons.mp h).2
            rw [insSorted] at hch ⊢
            by_cases hzx : le z x = true
            · rw [if_pos hzx] at hch ⊢
              exact List.chain'_cons.mpr ⟨hyz, hch⟩
            · rw [if_neg hzx] at hch ⊢
              exact List.chain'_cons.mpr ⟨hle, hch⟩
      · rw [if_neg hle]
        refine List.chain'_cons.mpr ⟨?_, h⟩
        rcases htot x y with h1 | h1
        · exact h1
        · exact absurd h1 hle

/-- The insertion sort produces a `≤`-chain, for a total comparison. -/
theorem chain'_insSort {α : Type} (le : α → α → Bool)
    (htot : ∀ a b, le a b = true ∨ le b a = true) :
    ∀ (l acc : List α), List.Chain' (fun a b => le a b = true) acc →
      List.Chain' (fun a b => le a b = true)
        (l.foldl (fun acc x => insSorted le x acc) acc) := by
  intro l
  induction l with
  | nil => intro acc h; simpa using h
  | cons x xs ih =>
      intro acc h
      simp only [List.foldl_cons]
      exact ih _ (chain'_insSorted le htot x acc h)

/-- In a `≤`-chain, the head is a lower bound, for a reflexive and
transitive comparison. -/
theorem chain'_head_le {α : Type} (le : α → α → Bool)
    (hrefl : ∀ a, le a a = true)
    (htrans : ∀ a b c, le a b = true → le b c = true → le a c = true) :
    ∀ (l : List α) (x : α), List.Chain' (fun a b => le a b = true) (x :: l) →
      ∀ y ∈ x :: l, le x y = true := by
  intro l
  induction l with
  | nil =>
      intro x _ y hy
      rw [List.mem_singleton] at hy
      rw [hy]
      exact hrefl x
  | cons z zs ih =>
      intro x h y hy
      have hxz : le x z = true := (List.chain'_cons.mp h).1
      rcases List.mem_cons.mp hy with hcase | hcase
      · rw [hcase]; exact hrefl x
      · exact htrans x z y hxz (ih z (List.chain'_cons.mp h).2 y hcase)

/-- C6: the price-comparison view returns, per store with at least one
observation for the item's name, that store's observation of maximum
timestamp, sorted ascending by price, with the head marked cheapest;
on {StoreA: 3.99@1, StoreB: 2.99@2, StoreA: 4.50@3} the output is
[StoreB 2.99 (cheapest), StoreA 4.50]. -/
theorem price_comparison_latest_per_store :
    (∀ (st : AppState) (item_id : Nat) (it : InventoryItem),
        st.items.find? (fun x => x.id = item_id) = some it →
        (∀ r ∈ get_price_history st item_id,
          ∃ o ∈ st.prices, sqlNoCaseEq o.item_name it.name = true ∧
            r = ⟨o.store, o.price, o.date_recorded⟩ ∧
            ∀ p ∈ st.prices, sqlNoCaseEq p.item_name it.name = true →
              p.store = o.store → p.date_recorded ≤ o.date_recorded) ∧
        List.Chain' (fun a b : PriceRow => a.price ≤ b.price)
          (get_price_history st item_id) ∧
        (∀ r, priceHistoryCheapest st item_id = some r →
          ∀ q ∈ get_price_history st item_id, r.price ≤ q.price)) ∧
    (get_price_history
        ⟨[⟨1, "Milk", "", "Fridge", 0, none, none, "have", 1, none, 0, 0⟩],
         [], [],
         [⟨"Milk", "StoreA", 3.99, 1⟩, ⟨"Milk", "StoreB", 2.99, 2⟩,
          ⟨"Milk", "StoreA", 4.5, 3⟩], 2, 1⟩ 1 =
      [⟨"StoreB", 2.99, 2⟩, ⟨"StoreA", 4.5, 3⟩] ∧
     priceHistoryCheapest
        ⟨[⟨1, "Milk", "", "Fridge", 0, none, none, "have", 1, none, 0, 0⟩],
         [], [],
         [⟨"Milk", "StoreA", 3.99, 1⟩, ⟨"Milk", "StoreB", 2.99, 2⟩,
          ⟨"Milk", "StoreA", 4.5, 3⟩], 2, 1⟩ 1 = some ⟨"StoreB", 2.99, 2⟩) := by
  have hle_tot : ∀ a b : PriceRow,
      decide (a.price ≤ b.price) = true ∨ decide (b.price ≤ a.price) = true := by
    intro a b
    rcases le_total a.price b.price with h | h
    · exact Or.inl (decide_eq_true h)
    · exact Or.inr (decide_eq_true h)
  constructor
  · intro st item_id it hit
    have hout : get_price_history st item_id =
        insSort (fun a b => decide (a.price ≤ b.price))
          (((st.prices.filter (fun o => sqlNoCaseEq o.item_name it.name)).filter
              (fun o => (st.prices.filter
                  (fun o2 => sqlNoCaseEq o2.item_name it.name)).all
                (fun p => p.store ≠ o.store ∨ p.date_recorded ≤ o.date_recorded))).map
            (fun o => ⟨o.store, o.price, o.date_recorded⟩)) := by
      rw [get_price_history, hit]
    refine ⟨?_, ?_, ?_⟩
    · intro r hr
      rw [hout, insSort] at hr
      rw [mem_insSort] at hr
      rcases hr with hr | hr
      · exact absurd hr (List.not_mem_nil r)
      · rcases List.mem_map.mp hr with ⟨o, ho, hro⟩
        rcases List.mem_filter.mp ho with ⟨ho1, ho2⟩
        rcases List.mem_filter.mp ho1 with ⟨ho3, ho4⟩
        refine ⟨o, ho3, ho4, hro.symm, ?_⟩
        intro p hp hpn hps
        have hpobs : p ∈ st.prices.filter
            (fun o2 => sqlNoCaseEq o2.item_name it.name) :=
          List.mem_filter.mpr ⟨hp, hpn⟩
        have := List.all_eq_true.mp ho2 p hpobs
        rcases of_decide_eq_true this with hcase | hcase
        · exact absurd hps hcase
        · exact hcase
    · rw [hout, insSort]
      exact (chain'_insSort (fun a b : PriceRow => decide (a.price ≤ b.price))
        hle_tot _ [] List.chain'_nil).imp (fun a b h => of_decide_eq_true h)
    · intro r hr q hq
      have hchain0 : List.Chain' (fun a b : PriceRow =>
          decide (a.price ≤ b.price) = true) (get_price_history st item_id) := by
        rw [hout, insSort]
        exact chain'_insSort (fun a b : PriceRow => decide (a.price ≤ b.price))
          hle_tot _ [] List.chain'_nil
      rw [priceHistoryCheapest] at hr
      cases hl : get_price_history st item_id with
      | nil => rw [hl] at hq; exact absurd hq (List.not_mem_nil q)
      | cons a tl =>
          rw [hl] at hr
          simp only [List.head?_cons, Option.some.injEq] at hr
          rw [hl] at hchain0
          have hmin := chain'_head_le (fun a b : PriceRow => decide (a.price ≤ b.price))
            (fun a => decide_eq_true (le_refl a.price))
            (fun a b c h1 h2 => decide_eq_true
              (le_trans (of_decide_eq_true h1) (of_decide_eq_true h2)))
            tl a hchain0 q (by rw [hl] at hq; exact hq)
          rw [← hr]
          exact of_decide_eq_true hmin
  · constructor
    · rw [get_price_history]
      norm_num [insSort, insSorted, List.find?_cons, List.filter_cons, List.all_cons,
        show sqlNoCaseEq "Milk" "Milk" = true from rfl]
      rw [if_neg (by decide : ¬("StoreA" : String) = "StoreB")]
      norm_num [insSorted]
    · rw [priceHistoryCheapest, get_price_history]
      norm_num [insSort, insSorted, List.find?_cons, List.filter_cons, List.all_cons,
        show sqlNoCaseEq "Milk" "Milk" = true from rfl]
      rw [if_neg (by decide : ¬("StoreA" : String) = "StoreB")]
      norm_num [insSorted]

/-- Witness for C6: the general part applied to the one-item inventory
with a single price observation. -/
theorem price_comparison_latest_per_store_witness :
    List.Chain' (fun a b : PriceRow => a.price ≤ b.price)
      (get_price_history
        ⟨[⟨1, "Milk", "", "Fridge", 0, none, none, "have", 1, none, 0, 0⟩],
         [], [], [⟨"Milk", "Kroger", 4, 5⟩], 2, 1⟩ 1) :=
  ((price_comparison_latest_per_store.1
    ⟨[⟨1, "Milk", "", "Fridge", 0, none, none, "have", 1, none, 0, 0⟩],
     [], [], [⟨"Milk", "Kroger", 4, 5⟩], 2, 1⟩ 1
    ⟨1, "Milk", "", "Fridge", 0, none, none, "have", 1, none, 0, 0⟩
    (by decide)).2).1

/-- Shape of a produced suggestion: the guards passed and every field is
the source formula over the name's restock dates. -/
theorem suggestionFor_eq_some {items : List InventoryItem} {today : ℤ}
    {name : String} {dates : List ℤ} {s : Suggestion}
    (h : suggestionFor items today name dates = some s) :
    s.item_name = name ∧ 2 ≤ dates.length ∧ 1 ≤ avgCycleOf dates ∧
    s.avg_cycle_days = pyRound (avgCycleOf dates) ∧
    s.days_since_restock =
      Int.fdiv (today - (sortDatesAsc dates).getLastD 0) 86400 ∧
    s.days_until_needed =
      pyRound (avgCycleOf dates - (s.days_since_restock : ℚ)) ∧
    s.confidence = pyRound2 (min ((dates.length : ℚ) / 5) 1) ∧
    s.restock_count = dates.length := by
  rw [suggestionFor] at h
  by_cases h2 : dates.length < 2
  · rw [if_pos h2] at h; exact absurd h (by simp)
  · rw [if_neg h2] at h
    by_cases ha : avgCycleOf dates < 1
    · rw [if_pos ha] at h; exact absurd h (by simp)
    · rw [if_neg ha] at h
      dsimp only at h
      simp only [Option.some.injEq] at h
      subst h
      exact ⟨rfl, by omega, not_lt.mp ha, rfl, rfl, rfl, rfl, rfl⟩

/-- Fewer than two restock events produce no suggestion. -/
theorem suggestionFor_eq_none_short {items : List InventoryItem} {today : ℤ}
    {name : String} {dates : List ℤ} (h : dates.length < 2) :
    suggestionFor items today name dates = none := by
  rw [suggestionFor, if_pos h]

/-- An average cycle below one day produces no suggestion. -/
theorem suggestionFor_eq_none_noise {items : List InventoryItem} {today : ℤ}
    {name : String} {dates : List ℤ} (h : avgCycleOf dates < 1) :
    suggestionFor items today name dates = none := by
  rw [suggestionFor]
  by_cases h2 : dates.length < 2
  · rw [if_pos h2]
  · rw [if_neg h2, if_pos h]

/-- Every suggestion in the output is reproducible from its own name's
restock dates. -/
theorem mem_get_suggestions {st : AppState} {today : ℤ} {s : Suggestion}
    (h : s ∈ get_suggestions st today) :
    suggestionFor st.items today s.item_name
      (restockDates st.history s.item_name) = some s := by
  rw [get_suggestions, insSort, mem_insSort] at h
  rcases h with h | h
  · exact absurd h (List.not_mem_nil s)
  · rcases List.mem_filterMap.mp h with ⟨n, -, hf⟩
    have hname := (suggestionFor_eq_some hf).1
    rw [hname]
    exact hf

/-- C5: a name enters the suggestions only with at least two restocked
events and an average cycle of at least one day; each entry carries the
source formulas (days_until_needed = round(avg − days_since), confidence
= min(count/5, 1) rounded to two decimals); the output is sorted
ascending by days_until_needed; and the events {0, 7, 14, 21} days seen
at day 28 yield avg_cycle 7, days_since 7, days_until_needed 0 and
confidence 0.8. -/
theorem restock_cycle_prediction :
    (∀ (st : AppState) (today : ℤ) (s : Suggestion),
        s ∈ get_suggestions st today →
        2 ≤ (restockDates st.history s.item_name).length ∧
        1 ≤ avgCycleOf (restockDates st.history s.item_name) ∧
        s.avg_cycle_days = pyRound (avgCycleOf (restockDates st.history s.item_name)) ∧
        s.days_since_restock = Int.fdiv
          (today - (sortDatesAsc (restockDates st.history s.item_name)).getLastD 0)
          86400 ∧
        s.days_until_needed = pyRound
          (avgCycleOf (restockDates st.history s.item_name) -
            (s.days_since_restock : ℚ)) ∧
        s.confidence = pyRound2
          (min (((restockDates st.history s.item_name).length : ℚ) / 5) 1) ∧
        s.restock_count = (restockDates st.history s.item_name).length) ∧
    (∀ (st : AppState) (today : ℤ),
        List.Chain' (fun a b : Suggestion =>
          a.days_until_needed ≤ b.days_until_needed) (get_suggestions st today)) ∧
    (∀ (st : AppState) (today : ℤ) (name : String),
        (restockDates st.history name).length < 2 →
        ∀ s ∈ get_suggestions st today, s.item_name ≠ name) ∧
    (∀ (st : AppState) (today : ℤ) (name : String),
        avgCycleOf (restockDates st.history name) < 1 →
        ∀ s ∈ get_suggestions st today, s.item_name ≠ name) ∧
    (get_suggestions
        ⟨[], [],
         [⟨"Milk", "restocked", 0⟩, ⟨"Milk", "restocked", 604800⟩,
          ⟨"Milk", "restocked", 1209600⟩, ⟨"Milk", "restocked", 1814400⟩],
         [], 1, 1⟩ 2419200 =
      [⟨"Milk", "Other", none, none, none, none, 7, 7, 0, 0.8, 4⟩]) := by
  refine ⟨?_, ?_, ?_, ?_, ?_⟩
  · intro st today s h
    have hf := mem_get_suggestions h
    have hfacts := suggestionFor_eq_some hf
    exact ⟨hfacts.2.1, hfacts.2.2.1, hfacts.2.2.2.1, hfacts.2.2.2.2.1,
      hfacts.2.2.2.2.2.1, hfacts.2.2.2.2.2.2.1, hfacts.2.2.2.2.2.2.2⟩
  · intro st today
    rw [get_suggestions, insSort]
    refine (chain'_insSort _ ?_ _ [] List.chain'_nil).imp
      (fun a b hab => of_decide_eq_true hab)
    intro a b
    rcases le_total a.days_until_needed b.days_until_needed with h | h
    · exact Or.inl (decide_eq_true h)
    · exact Or.inr (decide_eq_true h)
  · intro st today name hshort s hs hname
    have hf := mem_get_suggestions hs
    rw [hname, suggestionFor_eq_none_short hshort] at hf
    exact Option.noConfusion hf
  · intro st today name hnoise s hs hname
    have hf := mem_get_suggestions hs
    rw [hname, suggestionFor_eq_none_noise hnoise] at hf
    exact Option.noConfusion hf
  · have hdates : restockDates
        [⟨"Milk", "restocked", 0⟩, ⟨"Milk", "restocked", 604800⟩,
         ⟨"Milk", "restocked", 1209600⟩, ⟨"Milk", "restocked", 1814400⟩]
        "Milk" = [0, 604800, 1209600, 1814400] := by decide
    have havg : avgCycleOf [0, 604800, 1209600, 1814400] = 7 := by
      norm_num [avgCycleOf, cycleGapsOf, sortDatesAsc, insSort, insSorted,
        adjGaps, tdDays, Int.fdiv]
    have hsf : suggestionFor ([] : List InventoryItem) 2419200 "Milk"
        (restockDates
          [⟨"Milk", "restocked", 0⟩, ⟨"Milk", "restocked", 604800⟩,
           ⟨"Milk", "restocked", 1209600⟩, ⟨"Milk", "restocked", 1814400⟩]
          "Milk") =
        some ⟨"Milk", "Other", none, none, none, none, 7, 7, 0, 0.8, 4⟩ := by
      rw [hdates, suggestionFor, if_neg (by norm_num), if_neg (by rw [havg]; norm_num)]
      rw [havg]
      norm_num [sortDatesAsc, insSort, insSorted, latestItemFor, pyRound, pyRound2,
        Suggestion.mk.injEq, Int.fdiv]
    rw [get_suggestions]
    rw [show restockNames
        [⟨"Milk", "restocked", 0⟩, ⟨"Milk", "restocked", 604800⟩,
         ⟨"Milk", "restocked", 1209600⟩, ⟨"Milk", "restocked", 1814400⟩] =
      ["Milk"] from by decide]
    rw [List.filterMap_cons]
    rw [hsf]
    norm_num [insSort, insSorted]

/-- Witness for C5: the per-entry facts applied to the "Milk" suggestion
of the concrete four-event log. -/
theorem restock_cycle_prediction_witness :
    2 ≤ (restockDates
        [⟨"Milk", "restocked", 0⟩, ⟨"Milk", "restocked", 604800⟩,
         ⟨"Milk", "restocked", 1209600⟩, ⟨"Milk", "restocked", 1814400⟩]
        ("Milk" : String)).length ∧
    1 ≤ avgCycleOf (restockDates
        [⟨"Milk", "restocked", 0⟩, ⟨"Milk", "restocked", 604800⟩,
         ⟨"Milk", "restocked", 1209600⟩, ⟨"Milk", "restocked", 1814400⟩]
        ("Milk" : String)) := by
  have hmem : (⟨"Milk", "Other", none, none, none, none, 7, 7, 0, 0.8, 4⟩ :
      Suggestion) ∈ get_suggestions
        ⟨[], [],
         [⟨"Milk", "restocked", 0⟩, ⟨"Milk", "restocked", 604800⟩,
          ⟨"Milk", "restocked", 1209600⟩, ⟨"Milk", "restocked", 1814400⟩],
         [], 1, 1⟩ 2419200 := by
    rw [restock_cycle_prediction.2.2.2.2]
    exact List.mem_singleton.mpr rfl
  have h := restock_cycle_prediction.1
    ⟨[], [],
     [⟨"Milk", "restocked", 0⟩, ⟨"Milk", "restocked", 604800⟩,
      ⟨"Milk", "restocked", 1209600⟩, ⟨"Milk", "restocked", 1814400⟩],
     [], 1, 1⟩ 2419200
    ⟨"Milk", "Other", none, none, none, none, 7, 7, 0, 0.8, 4⟩ hmem
  exact ⟨h.1, h.2.1⟩

end KitchenIQ
